import Mathlib

/-!
# Verification of the `generator/actor` actor runtime

This file embeds the evolved actor core of `src/generator/actor/actor.go`
(the version with `sync.WaitGroup`-based accounting), the `Direct` wiring
function, and the `Options.configure` / `New` constructor, and proves or
refutes the specification's claims about them.

Messages in Go are `interface{}` values; we model a message as `Option α`,
where `none` is the Go zero value `nil` (in particular, the value a
receive on a closed, empty channel yields).  A processing function
`Processor = func(worker int, actor *Actor, message interface{})
(interface{}, error)` is modelled as `Nat → Option α → Option α × Option ε`
(the worker's 1-based index and the message, returning a result and an
optional error).  The mutable actor is modelled as an explicit state, and
the concurrent execution of worker goroutines, `Queue`'s asynchronous
insertion goroutines, and the `Stop` caller as a labelled small-step
transition relation over that state; interleaving is arbitrary.
-/

namespace ActorModel

/-- Execution phase of one worker goroutine spawned by `start`: the `go
actor.work(idx+1)` statement has been executed but the goroutine has not
yet run its first instruction (`notStarted`); the goroutine has executed
`workgroup.Add(1)` and is in its `select` loop (`running`); the goroutine
has taken the `<-actor.exit` branch and returned, running the deferred
`workgroup.Done()` (`exited`). -/
inductive WPhase where
  | notStarted
  | running
  | exited
deriving DecidableEq, Repr

/-- Program counter of the `Stop` caller: `running` (Stop not yet called,
`exit` channel open), `waitWorkers` (after `close(actor.exit)`, blocked in
`workgroup.Wait()`), `draining` (drain goroutine spawned, caller blocked
in `inboxgroup.Wait()`), `stopped` (after `close(actor.inbox)`;
`Stop` has returned `pendings`). -/
inductive SPhase where
  | running
  | waitWorkers
  | draining
  | stopped
deriving DecidableEq, Repr

/-- The immutable configuration of one actor, as set up by `New`:
the number of worker goroutines spawned by `start`, the capacity of the
`inbox` channel, the processing function, and whether an exception handler
(`e Exception`) and an output actor (`opt.Output`) were supplied.
The error values produced by the processor live in `ε`. -/
structure Config (α ε : Type) where
  numWorker : Nat
  cap : Nat
  proc : Nat → Option α → Option α × Option ε
  hasException : Bool
  hasOutbox : Bool

/-- The mutable state of one actor together with the ghost accounting the
specification's invariants speak about.

Real state (fields of the Go `Actor` plus goroutine program counters):
`inbox` (the buffered channel's contents, front = next to be received),
`inboxClosed` (whether `close(actor.inbox)` has run), `panicked` (a
goroutine has panicked, e.g. by sending on the closed inbox or a negative
`WaitGroup`), `inflight` (for every `Queue` call so far, the suffix of its
batch its insertion goroutine has not yet sent; the worker-side
`workgroup` counter is derivable as the number of `running` workers),
`inboxgroup` (the `inboxgroup` WaitGroup counter), `workers` (phase of
each worker goroutine), `sphase` (phase of the Stop protocol), `pendings`
(the slice accumulated by the drain goroutine).

Ghost state (history variables, never read by a transition guard):
`batchLog` (every batch ever passed to `Queue`, in call order),
`processedOk` / `processedFail` (messages a worker processed whose
processor returned no error / an error), `phantoms` (number of receives
that took the zero value from the closed, empty inbox), `routed` (results
sent to the outbox actor via `actor.outbox.Queue(result)`), `exceptions`
(invocations of the exception handler, as worker-index/error pairs). -/
structure St (α ε : Type) where
  inbox : List (Option α)
  inboxClosed : Bool
  panicked : Bool
  inflight : List (List (Option α))
  inboxgroup : Int
  workers : List WPhase
  sphase : SPhase
  pendings : List (Option α)
  batchLog : List (List (Option α))
  processedOk : List (Option α)
  processedFail : List (Option α)
  phantoms : Nat
  routed : List (Option α)
  exceptions : List (Nat × ε)
deriving Repr

/-- The state `New` hands back: empty channel, all counters zero, `numWorker`
spawned-but-not-yet-scheduled worker goroutines, exit channel open. -/
def initSt (cfg : Config α ε) : St α ε where
  inbox := []
  inboxClosed := false
  panicked := false
  inflight := []
  inboxgroup := 0
  workers := List.replicate cfg.numWorker .notStarted
  sphase := .running
  pendings := []
  batchLog := []
  processedOk := []
  processedFail := []
  phantoms := 0
  routed := []
  exceptions := []

/-- The body of `work`'s `case message := <-actor.inbox` branch, after the
message `m` has been received by worker number `w` (1-based): run
`actor.process(w, actor, message)`; if it errored and an exception handler
is configured, invoke the handler and `inboxgroup.Done()`; otherwise, if
an outbox is configured, `actor.outbox.Queue(result)` and
`inboxgroup.Done()`; otherwise just `inboxgroup.Done()`. -/
def workOnMessage (cfg : Config α ε) (w : Nat) (m : Option α) (s : St α ε) :
    St α ε :=
  match cfg.proc w m with
  | (r, some e) =>
    if cfg.hasException then
      { s with exceptions := s.exceptions ++ [(w, e)]
               processedFail := s.processedFail ++ [m]
               inboxgroup := s.inboxgroup - 1 }
    else if cfg.hasOutbox then
      { s with routed := s.routed ++ [r]
               processedFail := s.processedFail ++ [m]
               inboxgroup := s.inboxgroup - 1 }
    else
      { s with processedFail := s.processedFail ++ [m]
               inboxgroup := s.inboxgroup - 1 }
  | (r, none) =>
    if cfg.hasOutbox then
      { s with routed := s.routed ++ [r]
               processedOk := s.processedOk ++ [m]
               inboxgroup := s.inboxgroup - 1 }
    else
      { s with processedOk := s.processedOk ++ [m]
               inboxgroup := s.inboxgroup - 1 }

/-- Labels naming which piece of the program takes a step, so that theorems
can speak about particular transitions (e.g. an insertion attempt). -/
inductive Act (α : Type) where
  | queueCall (batch : List (Option α))
  | insertMsg (i : Nat)
  | insertClosedPanic (i : Nat)
  | recv (w : Nat)
  | recvClosed (w : Nat)
  | workerBegin (w : Nat)
  | workerExit (w : Nat)
  | stopBegin
  | stopWorkersDone
  | drain
  | stopFinish
deriving Repr

/-- One interleaved small step of the actor's goroutines.  A panicked
program takes no further steps.

* `queueCall`: the synchronous part of `Queue(messages...)` —
  `inboxgroup.Add(len(messages))` runs and the insertion goroutine is
  spawned holding the whole batch; nothing reaches the inbox yet.
* `insertMsg`: insertion goroutine `i` sends the next message of its batch
  on the open, non-full inbox channel.
* `insertClosedPanic`: insertion goroutine `i` attempts to send on the
  closed inbox channel; Go panics (`send on closed channel`).
* `recv`: a running worker's `select` takes `case message := <-actor.inbox`
  with a buffered message available and runs the body (`workOnMessage`);
  the worker's 1-based number is its index plus one.
* `recvClosed`: a running worker's `select` takes the inbox branch on the
  closed, empty inbox, which in Go yields the zero value `nil`
  immediately; the body runs on `none`.
* `workerBegin`: a spawned worker goroutine is first scheduled and
  executes `workgroup.Add(1)`.
* `workerExit`: a running worker's `select` takes `case <-actor.exit`
  (possible once the exit channel is closed) and returns, running the
  deferred `workgroup.Done()`.
* `stopBegin`: `Stop` runs `close(actor.exit)` and enters
  `workgroup.Wait()`.
* `stopWorkersDone`: `workgroup.Wait()` returns because the `workgroup`
  counter — the number of workers that have run `Add(1)` but not yet
  `Done()`, i.e. the `running` ones — is zero; `Stop` spawns the drain
  goroutine and enters `inboxgroup.Wait()`.
* `drain`: the drain goroutine's `for message := range actor.inbox`
  receives a message, appends it to `pendings` and runs
  `inboxgroup.Done()`.
* `stopFinish`: `inboxgroup.Wait()` returns because the `inboxgroup`
  counter is zero; `Stop` runs `close(actor.inbox)` and returns
  `pendings`. -/
inductive Step (cfg : Config α ε) : Act α → St α ε → St α ε → Prop where
  | queueCall (s : St α ε) (batch : List (Option α))
      (hp : s.panicked = false) :
      Step cfg (.queueCall batch) s
        { s with inboxgroup := s.inboxgroup + batch.length
                 batchLog := s.batchLog ++ [batch]
                 inflight := s.inflight ++ [batch] }
  | insertMsg (s : St α ε) (i : Nat) (m : Option α) (rest : List (Option α))
      (hp : s.panicked = false)
      (hi : s.inflight[i]? = some (m :: rest))
      (hcap : s.inbox.length < cfg.cap)
      (hcl : s.inboxClosed = false) :
      Step cfg (.insertMsg i) s
        { s with inbox := s.inbox ++ [m]
                 inflight := s.inflight.set i rest }
  | insertClosed (s : St α ε) (i : Nat) (m : Option α)
      (rest : List (Option α))
      (hp : s.panicked = false)
      (hi : s.inflight[i]? = some (m :: rest))
      (hcl : s.inboxClosed = true) :
      Step cfg (.insertClosedPanic i) s { s with panicked := true }
  | recv (s : St α ε) (w : Nat) (m : Option α) (rest : List (Option α))
      (hp : s.panicked = false)
      (hw : s.workers[w]? = some .running)
      (hin : s.inbox = m :: rest) :
      Step cfg (.recv w) s (workOnMessage cfg (w + 1) m { s with inbox := rest })
  | recvClosed (s : St α ε) (w : Nat)
      (hp : s.panicked = false)
      (hw : s.workers[w]? = some .running)
      (hin : s.inbox = [])
      (hcl : s.inboxClosed = true) :
      Step cfg (.recvClosed w) s
        (workOnMessage cfg (w + 1) none { s with phantoms := s.phantoms + 1 })
  | workerBegin (s : St α ε) (w : Nat)
      (hp : s.panicked = false)
      (hw : s.workers[w]? = some .notStarted) :
      Step cfg (.workerBegin w) s { s with workers := s.workers.set w .running }
  | workerExit (s : St α ε) (w : Nat)
      (hp : s.panicked = false)
      (hw : s.workers[w]? = some .running)
      (hex : s.sphase ≠ .running) :
      Step cfg (.workerExit w) s { s with workers := s.workers.set w .exited }
  | stopBegin (s : St α ε)
      (hp : s.panicked = false)
      (hs : s.sphase = .running) :
      Step cfg .stopBegin s { s with sphase := .waitWorkers }
  | stopWorkersDone (s : St α ε)
      (hp : s.panicked = false)
      (hs : s.sphase = .waitWorkers)
      (hw : s.workers.count .running = 0) :
      Step cfg .stopWorkersDone s { s with sphase := .draining }
  | drain (s : St α ε) (m : Option α) (rest : List (Option α))
      (hp : s.panicked = false)
      (hs : s.sphase = .draining)
      (hin : s.inbox = m :: rest) :
      Step cfg .drain s
        { s with inbox := rest
                 pendings := s.pendings ++ [m]
                 inboxgroup := s.inboxgroup - 1 }
  | stopFinish (s : St α ε)
      (hp : s.panicked = false)
      (hs : s.sphase = .draining)
      (hg : s.inboxgroup = 0) :
      Step cfg .stopFinish s { s with sphase := .stopped, inboxClosed := true }

/-- Some step with some label. -/
def StepAny (cfg : Config α ε) (s s' : St α ε) : Prop :=
  ∃ a, Step cfg a s s'

/-- `Reaches cfg s s'`: `s'` is reachable from `s` by an arbitrary
interleaving of steps. -/
def Reaches (cfg : Config α ε) : St α ε → St α ε → Prop :=
  Relation.ReflTransGen (StepAny cfg)

/-- A state of the actor reachable from the state `New` returns. -/
def Reachable (cfg : Config α ε) (s : St α ε) : Prop :=
  Reaches cfg (initSt cfg) s

/-- All messages ever passed to `Queue`, in call order (ghost). -/
def enq (s : St α ε) : List (Option α) :=
  s.batchLog.flatten

/-- All messages whose `Queue` call has run but whose insertion goroutine
has not yet placed them into the inbox channel. -/
def uninserted (s : St α ε) : List (Option α) :=
  s.inflight.flatten

/-! ## `Options`, `configure` and `New`

`Options` carries `Name`, `Worker`, `Output *Actor` and
`FailChannel chan<- error`.  We model the two reference-typed fields
abstractly: `output` is an optional reference to another actor (an
identifier), `failChannel` an optional reference to a channel.
`opt.configure()` mutates the options in place; `New` calls it on the
caller's object (pointer receiver), so we model `New` as returning both
the constructed actor's configuration/initial state and the options
object as the caller sees it afterwards. -/

/-- The `Options` struct of `actor.go`. -/
structure Options where
  name : String
  worker : Int
  output : Option Nat
  failChannel : Option Nat
deriving DecidableEq, Repr

/-- `func (opt *Options) configure()`: non-positive worker counts fall
back to 1. -/
def Options.configure (opt : Options) : Options :=
  if opt.worker ≤ 0 then { opt with worker := 1 } else opt

/-- `func New(p Processor, e Exception, opt *Options) *Actor`: run
`opt.configure()` on the caller's options object, then build the actor
with `opt.Worker` as both worker count and inbox capacity and spawn the
workers via `actor.start(0, opt.Worker)`.  Returns the actor's
configuration together with the options object as mutated. -/
def NewActor (p : Nat → Option α → Option α × Option ε) (hasExc : Bool)
    (opt : Options) : Config α ε × Options :=
  let opt' := opt.configure
  ({ numWorker := opt'.worker.toNat
     cap := opt'.worker.toNat
     proc := p
     hasException := hasExc
     hasOutbox := opt'.output.isSome }, opt')

/-! ## `Direct`

`func Direct(actors ...*Actor)` walks the argument list keeping the
previous actor as `source` and assigns `source.outbox = target` for each
adjacent pair.  Actors are modelled by identifiers and the mutable
`outbox` pointers of the world by a map from identifier to optional
identifier; `Direct` returns the updated map (it has no return value in
Go; the map is the mutated heap). -/

/-- The loop of `Direct`, with the `source` accumulator. -/
def directLoop (source : Option Nat) (wiring : Nat → Option Nat) :
    List Nat → Nat → Option Nat
  | [] => wiring
  | target :: rest =>
    match source with
    | none => directLoop (some target) wiring rest
    | some src =>
      directLoop (some target)
        (fun j => if j = src then some target else wiring j) rest

/-- `Direct(actors...)` starting from the heap `wiring`. -/
def Direct (wiring : Nat → Option Nat) (actors : List Nat) :
    Nat → Option Nat :=
  directLoop none wiring actors

/-! ## Concrete instances used in counterexamples and witnesses -/

/-- The Go value of a message, for summing integer messages: `nil`
contributes nothing, `some n` is the integer `n`. -/
def mval (m : Option Nat) : Nat :=
  m.getD 0

/-- A one-worker actor whose processor echoes the message and never
errors, with no exception handler and no outbox. -/
def cfgPlain : Config Nat Unit where
  numWorker := 1
  cap := 1
  proc := fun _ m => (m, none)
  hasException := false
  hasOutbox := false

/-- A 100-worker actor (inbox capacity 100, as `New` sets capacity to the
worker count) whose processor echoes the message and never errors. -/
def cfgBig : Config Nat Unit where
  numWorker := 100
  cap := 100
  proc := fun _ m => (m, none)
  hasException := false
  hasOutbox := false

/-- An actor with an outbox but no exception handler, whose processor
always fails, returning result `some 9` alongside the error. -/
def cfgErrOutbox : Config Nat Unit where
  numWorker := 1
  cap := 1
  proc := fun _ _ => (some 9, some ())
  hasException := false
  hasOutbox := true

/-- A wiring heap in which actor 2 already has an outbox (actor 3), used
to show `Direct` leaves the last argument's outbox untouched. -/
def w3 : Nat → Option Nat :=
  fun j => if j = 2 then some 3 else none

/-- An empty wiring heap: no actor has an outbox yet. -/
def wNone : Nat → Option Nat :=
  fun _ => none

/-- State of a `cfgErrOutbox` actor after its worker started, `Queue(5)`
ran and inserted, and the worker processed the message: the processor
failed, there is no exception handler, and the result `some 9` was routed
to the outbox anyway. -/
def sRouted : St Nat Unit :=
  { initSt cfgErrOutbox with workers := [.running], inboxgroup := 0, batchLog := [[some 5]], inflight := [[]], routed := [some 9], processedFail := [some 5] }

/-- An options object with a non-positive worker count and all other
fields populated. -/
def opt0 : Options :=
  { name := "bale", worker := -2, output := some 7, failChannel := some 1 }

/-- The options object of the spec's `Create(p, e, \x7bworker:0\x7d)` test. -/
def optZero : Options :=
  { name := "", worker := 0, output := none, failChannel := none }

/-- The messages `1..100` of the conservation test. -/
def batch100 : List (Option Nat) :=
  (List.range' 1 100).map some

/-- The state of a fresh `cfgPlain` actor after `Stop()` ran to completion
before the single worker goroutine was ever scheduled: `workgroup.Wait()`
returned because the worker had not yet executed `workgroup.Add(1)`. -/
def sStopEarly : St Nat Unit :=
  { initSt cfgPlain with sphase := .stopped, inboxClosed := true }

/-- `sStopEarly` after the late worker goroutine finally runs: it registers
with the worker group, its `select` takes the receive branch on the closed
empty inbox (yielding `nil`), processes it, and calls
`inboxgroup.Done()` on the zero counter, driving it to `-1` (in Go:
`panic: sync: negative WaitGroup counter`). -/
def sNegative : St Nat Unit :=
  { initSt cfgPlain with sphase := .stopped, inboxClosed := true, workers := [.running], phantoms := 1, processedOk := [none], inboxgroup := -1 }

/-- The state of a fresh `cfgPlain` actor right after `Queue(5)` returned,
before the insertion goroutine has run: the message is counted but is in
no mailbox, no processed set, and no pending list. -/
def sQueued : St Nat Unit :=
  { initSt cfgPlain with inboxgroup := 1, batchLog := [[some 5]], inflight := [[some 5]] }

/-- The final state of a run of `cfgBig` in which `1..100` are enqueued in
one `Queue` call, all are inserted, `Stop` begins before any worker was
scheduled, and the drain goroutine drains all 100 as pending. -/
def s100 : St Nat Unit :=
  { initSt cfgBig with inboxgroup := 0, inflight := [[]], batchLog := [batch100], pendings := batch100, sphase := .stopped, inboxClosed := true }

/-! ## The inductive invariant

`Inv` is the inductive invariant of the transition system from which the
specification's claims are settled.  `conservation` is I1 in multiset
form: everything ever passed to `Queue`, together with one `nil` per
zero-value receive from the closed inbox, is accounted for exactly once as
processed-without-error, processed-with-error, still buffered, drained as
pending, or not yet inserted by a `Queue` goroutine.  `counter` says the
`inboxgroup` WaitGroup counter equals buffered plus uninserted messages
minus zero-value receives.  `queuedSub` says the mailbox, the pending list
and the uninserted messages only ever hold messages that were enqueued. -/
structure Inv (s : St α ε) : Prop where
  conservation :
    ((enq s : Multiset (Option α)) + Multiset.replicate s.phantoms none)
      = (s.processedOk : Multiset (Option α))
        + (s.processedFail : Multiset (Option α))
        + (s.inbox : Multiset (Option α))
        + (s.pendings : Multiset (Option α))
        + (uninserted s : Multiset (Option α))
  counter :
    s.inboxgroup
      = (s.inbox.length : Int) + ((uninserted s).length : Int)
        - (s.phantoms : Int)
  queuedSub :
    ((s.inbox : Multiset (Option α)) + (s.pendings : Multiset (Option α))
        + (uninserted s : Multiset (Option α)))
      ≤ (enq s : Multiset (Option α))
  phantomsClosed : s.phantoms ≠ 0 → s.inboxClosed = true
  closedStopped : s.inboxClosed = true ↔ s.sphase = .stopped
  closedEmpty : s.inboxClosed = true → s.inbox = []
  batchLen : s.inflight.length = s.batchLog.length
  batchSuffix : ∀ (i : Nat) (b c : List (Option α)),
    s.inflight[i]? = some b → s.batchLog[i]? = some c → b <:+ c

lemma flatten_set_multiset {β : Type} (L : List (List β)) (i : Nat) (x : β)
    (rest : List β) (h : L[i]? = some (x :: rest)) :
    (L.flatten : Multiset β) = x ::ₘ ((L.set i rest).flatten : Multiset β) := by
  induction L generalizing i with
  | nil => simp at h
  | cons hd tl ih =>
    cases i with
    | zero =>
      simp only [List.getElem?_cons_zero, Option.some.injEq] at h
      subst h
      simp [Multiset.cons_coe]
    | succ j =>
      simp only [List.getElem?_cons_succ] at h
      have := ih j h
      simp only [List.set_cons_succ, List.flatten_cons, ← Multiset.coe_add,
        this, ← Multiset.singleton_add]
      abel

lemma flatten_set_length {β : Type} (L : List (List β)) (i : Nat) (x : β)
    (rest : List β) (h : L[i]? = some (x :: rest)) :
    L.flatten.length = (L.set i rest).flatten.length + 1 := by
  have := congrArg Multiset.card (flatten_set_multiset L i x rest h)
  simpa [Multiset.coe_card] using this

lemma workOnMessage_frame (cfg : Config α ε) (w : Nat) (m : Option α)
    (s : St α ε) :
    (workOnMessage cfg w m s).inbox = s.inbox ∧
    (workOnMessage cfg w m s).inboxClosed = s.inboxClosed ∧
    (workOnMessage cfg w m s).panicked = s.panicked ∧
    (workOnMessage cfg w m s).inflight = s.inflight ∧
    (workOnMessage cfg w m s).workers = s.workers ∧
    (workOnMessage cfg w m s).sphase = s.sphase ∧
    (workOnMessage cfg w m s).pendings = s.pendings ∧
    (workOnMessage cfg w m s).batchLog = s.batchLog ∧
    (workOnMessage cfg w m s).phantoms = s.phantoms := by
  rcases hpr : cfg.proc w m with ⟨r, e⟩
  rcases e with _ | ev <;> simp only [workOnMessage, hpr] <;>
    rcases cfg.hasException with _ | _ <;>
    rcases cfg.hasOutbox with _ | _ <;> simp

lemma workOnMessage_inboxgroup (cfg : Config α ε) (w : Nat) (m : Option α)
    (s : St α ε) :
    (workOnMessage cfg w m s).inboxgroup = s.inboxgroup - 1 := by
  rcases hpr : cfg.proc w m with ⟨r, e⟩
  rcases e with _ | ev <;> simp only [workOnMessage, hpr] <;>
    rcases cfg.hasException with _ | _ <;>
    rcases cfg.hasOutbox with _ | _ <;> simp

lemma workOnMessage_disposition (cfg : Config α ε) (w : Nat) (m : Option α)
    (s : St α ε) :
    ((workOnMessage cfg w m s).processedOk : Multiset (Option α))
        + ((workOnMessage cfg w m s).processedFail : Multiset (Option α))
      = m ::ₘ ((s.processedOk : Multiset (Option α))
          + (s.processedFail : Multiset (Option α))) := by
  rcases hpr : cfg.proc w m with ⟨r, e⟩
  rcases e with _ | ev <;> simp only [workOnMessage, hpr] <;>
    rcases cfg.hasException with _ | _ <;>
    rcases cfg.hasOutbox with _ | _ <;>
    simp [← Multiset.coe_add, ← Multiset.singleton_add] <;> abel

lemma inv_init (cfg : Config α ε) : Inv (initSt cfg) := by
  constructor <;> simp [initSt, enq, uninserted]

lemma inv_step {cfg : Config α ε} {a : Act α} {s s' : St α ε}
    (h : Inv s) (hstep : Step cfg a s s') : Inv s' := by
  classical
  cases hstep with
  | queueCall s batch hp =>
    refine ⟨?_, ?_, ?_, h.phantomsClosed, h.closedStopped, h.closedEmpty,
      ?_, ?_⟩
    · refine Multiset.ext.mpr fun x => ?_
      have hcx := congrArg (Multiset.count x) h.conservation
      simp only [enq, uninserted, List.flatten_append, List.flatten_cons,
        List.flatten_nil, List.append_nil, ← Multiset.coe_add,
        Multiset.count_add, Multiset.count_replicate] at hcx ⊢
      split_ifs at hcx ⊢ <;> omega
    · have hk := h.counter
      simp only [enq, uninserted, List.flatten_append, List.flatten_cons,
        List.flatten_nil, List.append_nil, List.length_append] at hk ⊢
      push_cast at hk ⊢
      omega
    · have hq := Multiset.le_iff_count.mp h.queuedSub
      rw [Multiset.le_iff_count]
      intro x
      have hqx := hq x
      simp only [enq, uninserted, List.flatten_append, List.flatten_cons,
        List.flatten_nil, List.append_nil, ← Multiset.coe_add,
        Multiset.count_add] at hqx ⊢
      omega
    · simp [List.length_append, h.batchLen]
    · intro i b c hb hc2
      by_cases hi : i < s.inflight.length
      · rw [List.getElem?_append_left hi] at hb
        have hi2 : i < s.batchLog.length := h.batchLen ▸ hi
        rw [List.getElem?_append_left hi2] at hc2
        exact h.batchSuffix i b c hb hc2
      · have hge : s.inflight.length ≤ i := Nat.le_of_not_lt hi
        have hge2 : s.batchLog.length ≤ i := h.batchLen ▸ hge
        rw [List.getElem?_append_right hge] at hb
        rw [List.getElem?_append_right hge2] at hc2
        rw [h.batchLen] at hb
        rcases hk : i - s.batchLog.length with _ | k
        · rw [hk] at hb hc2
          simp only [List.getElem?_cons_zero, Option.some.injEq] at hb hc2
          subst hb; subst hc2
          exact List.suffix_refl _
        · rw [hk] at hb
          simp at hb
  | insertMsg s i m rest hp hi hcap hcl =>
    have hfs := flatten_set_multiset s.inflight i m rest hi
    have hilen : i < s.inflight.length := (List.getElem?_eq_some.mp hi).1
    refine ⟨?_, ?_, ?_, h.phantomsClosed, h.closedStopped, ?_, ?_, ?_⟩
    · refine Multiset.ext.mpr fun x => ?_
      have hcx := congrArg (Multiset.count x) h.conservation
      have hfx := congrArg (Multiset.count x) hfs
      simp only [enq, uninserted, ← Multiset.coe_add, Multiset.count_add,
        Multiset.count_cons, Multiset.count_replicate, Multiset.coe_singleton,
        Multiset.count_singleton] at hcx hfx ⊢
      split_ifs at hcx hfx ⊢ <;> omega
    · have hk := h.counter
      have hfl := flatten_set_length s.inflight i m rest hi
      simp only [enq, uninserted, List.length_append, List.length_singleton]
        at hk ⊢
      push_cast at hk ⊢
      omega
    · have hq := Multiset.le_iff_count.mp h.queuedSub
      rw [Multiset.le_iff_count]
      intro x
      have hqx := hq x
      have hfx := congrArg (Multiset.count x) hfs
      simp only [enq, uninserted, ← Multiset.coe_add, Multiset.count_add,
        Multiset.count_cons, Multiset.coe_singleton, Multiset.count_singleton]
        at hqx hfx ⊢
      split_ifs at hfx ⊢ <;> omega
    · intro hx
      have hx2 : s.inboxClosed = true := hx
      rw [hcl] at hx2
      cases hx2
    · show (s.inflight.set i rest).length = s.batchLog.length
      simp [List.length_set, h.batchLen]
    · intro j b c hb hc2
      by_cases hji : j = i
      · subst hji
        rw [List.getElem?_set_self hilen, Option.some.injEq] at hb
        subst hb
        have hsuf := h.batchSuffix j (m :: rest) c hi hc2
        exact (List.suffix_cons m rest).trans hsuf
      · rw [List.getElem?_set_ne (fun hx => hji hx.symm)] at hb
        exact h.batchSuffix j b c hb hc2
  | insertClosed s i m rest hp hi hcl =>
    exact ⟨h.conservation, h.counter, h.queuedSub, h.phantomsClosed,
      h.closedStopped, h.closedEmpty, h.batchLen, h.batchSuffix⟩
  | recv s w m rest hp hw hin =>
    obtain ⟨hIn, hCl, hPan, hFl, hWk, hSp, hPd, hBl, hPh⟩ :=
      workOnMessage_frame cfg (w + 1) m { s with inbox := rest }
    have hd := workOnMessage_disposition cfg (w + 1) m { s with inbox := rest }
    have hg := workOnMessage_inboxgroup cfg (w + 1) m { s with inbox := rest }
    replace hIn : _ = rest := hIn
    replace hCl : _ = s.inboxClosed := hCl
    replace hFl : _ = s.inflight := hFl
    replace hSp : _ = s.sphase := hSp
    replace hPd : _ = s.pendings := hPd
    replace hBl : _ = s.batchLog := hBl
    replace hPh : _ = s.phantoms := hPh
    replace hd : _ = m ::ₘ ((s.processedOk : Multiset (Option α))
      + (s.processedFail : Multiset (Option α))) := hd
    replace hg : _ = s.inboxgroup - 1 := hg
    refine ⟨?_, ?_, ?_, ?_, ?_, ?_, ?_, ?_⟩
    · refine Multiset.ext.mpr fun x => ?_
      have hcx := congrArg (Multiset.count x) h.conservation
      have hdx := congrArg (Multiset.count x) hd
      rw [hin] at hcx
      simp only [enq, uninserted, hIn, hFl, hBl, hPd, hPh,
        ← Multiset.cons_coe, ← Multiset.coe_add, Multiset.count_add,
        Multiset.count_cons, Multiset.count_replicate, Multiset.coe_nil,
        Multiset.count_zero] at hcx hdx ⊢
      split_ifs at hcx hdx ⊢ <;> omega
    · have hk := h.counter
      rw [hin] at hk
      rw [hg]
      simp only [enq, uninserted, hIn, hFl, hPh, List.length_cons] at hk ⊢
      push_cast at hk ⊢
      omega
    · have hq := Multiset.le_iff_count.mp h.queuedSub
      rw [Multiset.le_iff_count]
      intro x
      have hqx := hq x
      rw [hin] at hqx
      simp only [enq, uninserted, hIn, hFl, hPd, hBl, ← Multiset.cons_coe,
        ← Multiset.coe_add, Multiset.count_add, Multiset.count_cons,
        Multiset.coe_nil, Multiset.count_zero] at hqx ⊢
      split_ifs at hqx <;> omega
    · rw [hPh, hCl]
      exact h.phantomsClosed
    · rw [hCl, hSp]
      exact h.closedStopped
    · rw [hCl, hIn]
      intro hx
      have hnil := h.closedEmpty hx
      rw [hin] at hnil
      exact absurd hnil (List.cons_ne_nil m rest)
    · rw [hFl, hBl]
      exact h.batchLen
    · intro i b c hb hc2
      rw [hFl] at hb
      rw [hBl] at hc2
      exact h.batchSuffix i b c hb hc2
  | recvClosed s w hp hw hin hcl =>
    obtain ⟨hIn, hCl, hPan, hFl, hWk, hSp, hPd, hBl, hPh⟩ :=
      workOnMessage_frame cfg (w + 1) none { s with phantoms := s.phantoms + 1 }
    have hd := workOnMessage_disposition cfg (w + 1) none
      { s with phantoms := s.phantoms + 1 }
    have hg := workOnMessage_inboxgroup cfg (w + 1) none
      { s with phantoms := s.phantoms + 1 }
    replace hIn : _ = s.inbox := hIn
    replace hCl : _ = s.inboxClosed := hCl
    replace hFl : _ = s.inflight := hFl
    replace hSp : _ = s.sphase := hSp
    replace hPd : _ = s.pendings := hPd
    replace hBl : _ = s.batchLog := hBl
    replace hPh : _ = s.phantoms + 1 := hPh
    replace hd : _ = (none : Option α) ::ₘ ((s.processedOk : Multiset (Option α))
      + (s.processedFail : Multiset (Option α))) := hd
    replace hg : _ = s.inboxgroup - 1 := hg
    refine ⟨?_, ?_, ?_, ?_, ?_, ?_, ?_, ?_⟩
    · refine Multiset.ext.mpr fun x => ?_
      have hcx := congrArg (Multiset.count x) h.conservation
      have hdx := congrArg (Multiset.count x) hd
      rw [hin] at hcx
      simp only [enq, uninserted] at hcx
      simp only [enq, uninserted, hIn, hFl, hBl, hPd, hPh] at hdx ⊢
      simp only [Multiset.replicate_succ, ← Multiset.cons_coe,
        ← Multiset.coe_add, Multiset.count_add, Multiset.count_cons,
        Multiset.count_replicate, Multiset.coe_nil, Multiset.count_zero]
        at hcx hdx ⊢
      rcases x with _ | xv
      · have hnil : Multiset.count (none : Option α) ↑s.inbox = 0 := by
          rw [hin]; simp
        simp only [eq_self_iff_true, if_true] at hcx hdx ⊢
        omega
      · have hnil : Multiset.count (some xv) (s.inbox : Multiset (Option α))
            = 0 := by
          rw [hin]; simp
        simp only [reduceCtorEq, if_false] at hcx hdx ⊢
        omega
    · have hk := h.counter
      rw [hin] at hk
      rw [hg]
      simp only [enq, uninserted] at hk
      simp only [enq, uninserted, hIn, hFl, hPh]
      have hlen : s.inbox.length = 0 := by rw [hin]; rfl
      simp only [List.length_nil] at hk
      push_cast at hk ⊢
      omega
    · have hq := Multiset.le_iff_count.mp h.queuedSub
      rw [Multiset.le_iff_count]
      intro x
      have hqx := hq x
      simp only [enq, uninserted, hIn, hFl, hPd, hBl, Multiset.count_add]
        at hqx ⊢
      omega
    · rw [hPh, hCl]
      intro _
      exact hcl
    · rw [hCl, hSp]
      exact h.closedStopped
    · rw [hCl, hIn]
      intro _
      exact hin
    · rw [hFl, hBl]
      exact h.batchLen
    · intro i b c hb hc2
      rw [hFl] at hb
      rw [hBl] at hc2
      exact h.batchSuffix i b c hb hc2
  | workerBegin s w hp hw =>
    exact ⟨h.conservation, h.counter, h.queuedSub, h.phantomsClosed,
      h.closedStopped, h.closedEmpty, h.batchLen, h.batchSuffix⟩
  | workerExit s w hp hw hex =>
    exact ⟨h.conservation, h.counter, h.queuedSub, h.phantomsClosed,
      h.closedStopped, h.closedEmpty, h.batchLen, h.batchSuffix⟩
  | stopBegin s hp hs =>
    refine ⟨h.conservation, h.counter, h.queuedSub, h.phantomsClosed, ?_,
      h.closedEmpty, h.batchLen, h.batchSuffix⟩
    constructor
    · intro hx
      have hz := h.closedStopped.mp hx
      rw [hs] at hz
      cases hz
    · intro hx
      cases hx
  | stopWorkersDone s hp hs hw =>
    refine ⟨h.conservation, h.counter, h.queuedSub, h.phantomsClosed, ?_,
      h.closedEmpty, h.batchLen, h.batchSuffix⟩
    constructor
    · intro hx
      have hz := h.closedStopped.mp hx
      rw [hs] at hz
      cases hz
    · intro hx
      cases hx
  | drain s m rest hp hs hin =>
    refine ⟨?_, ?_, ?_, h.phantomsClosed, h.closedStopped, ?_, h.batchLen,
      h.batchSuffix⟩
    · refine Multiset.ext.mpr fun x => ?_
      have hcx := congrArg (Multiset.count x) h.conservation
      rw [hin] at hcx
      simp only [enq, uninserted, ← Multiset.cons_coe, ← Multiset.coe_add,
        Multiset.count_add, Multiset.count_cons, Multiset.count_replicate,
        Multiset.coe_nil, Multiset.count_zero] at hcx ⊢
      split_ifs at hcx ⊢ <;> omega
    · have hk := h.counter
      rw [hin] at hk
      simp only [enq, uninserted, List.length_append, List.length_cons,
        List.length_singleton] at hk ⊢
      push_cast at hk ⊢
      omega
    · have hq := Multiset.le_iff_count.mp h.queuedSub
      rw [Multiset.le_iff_count]
      intro x
      have hqx := hq x
      rw [hin] at hqx
      simp only [enq, uninserted, ← Multiset.cons_coe, ← Multiset.coe_add,
        Multiset.count_add, Multiset.count_cons, Multiset.coe_nil,
        Multiset.count_zero] at hqx ⊢
      split_ifs at hqx ⊢ <;> omega
    · intro hx
      have hz := h.closedStopped.mp hx
      rw [hs] at hz
      cases hz
  | stopFinish s hp hs hg =>
    refine ⟨h.conservation, h.counter, h.queuedSub, ?_, ?_, ?_, h.batchLen,
      h.batchSuffix⟩
    · intro _
      rfl
    · simp
    · intro _
      have hcl : s.inboxClosed = false := by
        cases hx : s.inboxClosed
        · rfl
        · have hz := h.closedStopped.mp hx
          rw [hs] at hz
          cases hz
      have hph : s.phantoms = 0 := by
        by_contra hph
        rw [h.phantomsClosed hph] at hcl
        cases hcl
      have hk := h.counter
      rw [hg, hph] at hk
      push_cast at hk
      have hlen : s.inbox.length = 0 := by omega
      exact List.length_eq_zero.mp hlen

lemma inv_reachable {cfg : Config α ε} {s : St α ε} (h : Reachable cfg s) :
    Inv s := by
  induction h with
  | refl => exact inv_init cfg
  | tail _ hstep ih =>
    obtain ⟨a, hst⟩ := hstep
    exact inv_step ih hst

lemma insertAll (cfg : Config α ε) (s : St α ε) (ms : List (Option α))
    (hfl : s.inflight = [ms])
    (hcap : s.inbox.length + ms.length ≤ cfg.cap)
    (hcl : s.inboxClosed = false)
    (hp : s.panicked = false) :
    Reaches cfg s { s with inbox := s.inbox ++ ms, inflight := [[]] } := by
  induction ms generalizing s with
  | nil =>
    have heq : ({ s with inbox := s.inbox ++ [], inflight := [[]] } : St α ε) = s := by
      rw [← hfl]
      simp
    rw [heq]
    exact Relation.ReflTransGen.refl
  | cons m tl ih =>
    have hstep : Step cfg (.insertMsg 0) s { s with inbox := s.inbox ++ [m], inflight := s.inflight.set 0 tl } :=
      Step.insertMsg s 0 m tl hp (by rw [hfl]; rfl)
        (by simp only [List.length_cons] at hcap; omega) hcl
    have hrest := ih { s with inbox := s.inbox ++ [m], inflight := s.inflight.set 0 tl }
      (by rw [hfl]; rfl)
      (by simp only [List.length_append, List.length_singleton, List.length_cons, List.length_nil] at hcap ⊢; omega)
      hcl hp
    have heq : ({ s with inbox := (s.inbox ++ [m]) ++ tl, inflight := [[]] } : St α ε) = { s with inbox := s.inbox ++ m :: tl, inflight := [[]] } := by
      rw [List.append_assoc]
      rfl
    refine Relation.ReflTransGen.head ⟨_, hstep⟩ ?_
    rw [← heq]
    exact hrest

lemma drainAll (cfg : Config α ε) (s : St α ε) (l : List (Option α))
    (hin : s.inbox = l) (hs : s.sphase = .draining)
    (hp : s.panicked = false) :
    Reaches cfg s { s with inbox := [], pendings := s.pendings ++ l, inboxgroup := s.inboxgroup - (l.length : Int) } := by
  induction l generalizing s with
  | nil =>
    have heq : ({ s with inbox := [], pendings := s.pendings ++ [], inboxgroup := s.inboxgroup - (([] : List (Option α)).length : Int) } : St α ε) = s := by
      have h0 : s.pendings ++ ([] : List (Option α)) = s.pendings := List.append_nil _
      have h1 : s.inboxgroup - ((([] : List (Option α)).length : Nat) : Int) = s.inboxgroup := by simp
      rw [h0, h1, ← hin]
    rw [heq]
    exact Relation.ReflTransGen.refl
  | cons m tl ih =>
    have hstep : Step cfg .drain s { s with inbox := tl, pendings := s.pendings ++ [m], inboxgroup := s.inboxgroup - 1 } :=
      Step.drain s m tl hp hs hin
    have hrest := ih { s with inbox := tl, pendings := s.pendings ++ [m], inboxgroup := s.inboxgroup - 1 } rfl hs hp
    have heq : ({ s with inbox := ([] : List (Option α)), pendings := (s.pendings ++ [m]) ++ tl, inboxgroup := s.inboxgroup - 1 - (tl.length : Int) } : St α ε) = { s with inbox := [], pendings := s.pendings ++ m :: tl, inboxgroup := s.inboxgroup - ((m :: tl).length : Int) } := by
      have h1 : (s.pendings ++ [m]) ++ tl = s.pendings ++ m :: tl := by
        simp
      have h2 : s.inboxgroup - 1 - (tl.length : Int) = s.inboxgroup - (((m :: tl).length : Nat) : Int) := by
        simp only [List.length_cons]
        push_cast
        ring
      rw [h1, h2]
    refine Relation.ReflTransGen.head ⟨_, hstep⟩ ?_
    rw [← heq]
    exact hrest

lemma reach_sStopEarly : Reachable cfgPlain sStopEarly := by
  refine Relation.ReflTransGen.head ⟨_, Step.stopBegin (initSt cfgPlain) rfl rfl⟩ ?_
  refine Relation.ReflTransGen.head ⟨_, Step.stopWorkersDone _ rfl rfl (by decide)⟩ ?_
  exact Relation.ReflTransGen.single ⟨_, Step.stopFinish _ rfl rfl rfl⟩

lemma reach_sNegative : Reachable cfgPlain sNegative := by
  refine Relation.ReflTransGen.trans reach_sStopEarly ?_
  refine Relation.ReflTransGen.head ⟨_, Step.workerBegin sStopEarly 0 rfl rfl⟩ ?_
  exact Relation.ReflTransGen.single ⟨_, Step.recvClosed _ 0 rfl rfl rfl rfl⟩

lemma reach_sQueued : Reachable cfgPlain sQueued :=
  Relation.ReflTransGen.single ⟨_, Step.queueCall (initSt cfgPlain) [some 5] rfl⟩

lemma reach_sRouted : Reachable cfgErrOutbox sRouted := by
  refine Relation.ReflTransGen.head ⟨_, Step.workerBegin (initSt cfgErrOutbox) 0 rfl rfl⟩ ?_
  refine Relation.ReflTransGen.head ⟨_, Step.queueCall _ [some 5] rfl⟩ ?_
  refine Relation.ReflTransGen.head ⟨_, Step.insertMsg _ 0 (some 5) [] rfl rfl (by decide) rfl⟩ ?_
  exact Relation.ReflTransGen.single ⟨_, Step.recv _ 0 (some 5) [] rfl rfl rfl⟩

lemma reach_s100 : Reachable cfgBig s100 := by
  refine Relation.ReflTransGen.head ⟨_, Step.queueCall (initSt cfgBig) batch100 rfl⟩ ?_
  refine Relation.ReflTransGen.trans (insertAll cfgBig _ batch100 rfl (by decide) rfl rfl) ?_
  refine Relation.ReflTransGen.head ⟨_, Step.stopBegin _ rfl rfl⟩ ?_
  refine Relation.ReflTransGen.head ⟨_, Step.stopWorkersDone _ rfl rfl (by decide)⟩ ?_
  refine Relation.ReflTransGen.trans (drainAll cfgBig _ batch100 rfl rfl rfl) ?_
  exact Relation.ReflTransGen.single ⟨_, Step.stopFinish _ rfl rfl (by decide)⟩

lemma directLoop_not_source (w : Nat → Option Nat) (l : List Nat)
    (src : Option Nat) (j : Nat)
    (hsrc : src ≠ some j) (hj : j ∉ l.dropLast) :
    directLoop src w l j = w j := by
  induction l generalizing w src with
  | nil =>
    cases src <;> rfl
  | cons t rest ih =>
    cases src with
    | none =>
      show directLoop (some t) w rest j = w j
      cases rest with
      | nil => rfl
      | cons r rs =>
        have hj2 : j ∉ (r :: rs).dropLast ∧ j ≠ t := by
          constructor
          · intro hx
            exact hj (by exact List.mem_cons_of_mem t hx)
          · intro hx
            exact hj (by rw [hx]; exact List.mem_cons_self t _)
        exact ih w (some t) (fun hx => hj2.2 (by injection hx; omega)) hj2.1
    | some s =>
      show directLoop (some t) (fun x => if x = s then some t else w x) rest j
        = w j
      have hjs : j ≠ s := fun hx => hsrc (by rw [hx])
      cases rest with
      | nil =>
        show (if j = s then some t else w j) = w j
        simp [hjs]
      | cons r rs =>
        have hj2 : j ∉ (r :: rs).dropLast ∧ j ≠ t := by
          constructor
          · intro hx
            exact hj (List.mem_cons_of_mem t hx)
          · intro hx
            exact hj (by rw [hx]; exact List.mem_cons_self t _)
        have := ih (fun x => if x = s then some t else w x) (some t)
          (fun hx => hj2.2 (by injection hx; omega)) hj2.1
        rw [this]
        simp [hjs]

lemma directLoop_pair (w : Nat → Option Nat) (s : Nat) (l : List Nat)
    (hnd : ((s :: l).dropLast).Nodup) :
    ∀ p ∈ (s :: l).zip l, directLoop (some s) w l p.1 = some p.2 := by
  induction l generalizing w s with
  | nil =>
    intro p hp
    simp at hp
  | cons t rest ih =>
    intro p hp
    rw [List.zip_cons_cons, List.mem_cons] at hp
    rcases hp with hp | hp
    · subst hp
      show directLoop (some t) (fun x => if x = s then some t else w x) rest s
        = some t
      cases rest with
      | nil =>
        show (if s = s then some t else w s) = some t
        simp
      | cons r rs =>
        have hnd2 : s ∉ (t :: r :: rs).dropLast ∧ s ≠ t := by
          have h1 : (s :: t :: r :: rs).dropLast
              = s :: (t :: r :: rs).dropLast := rfl
          rw [h1, List.nodup_cons] at hnd
          refine ⟨hnd.1, ?_⟩
          intro hx
          exact hnd.1 (by rw [hx]; exact List.mem_cons_self t _)
        have := directLoop_not_source (fun x => if x = s then some t else w x)
          (r :: rs) (some t) s
          (fun hx => hnd2.2 (by injection hx; omega))
          (by
            intro hx
            exact hnd2.1 (List.mem_cons_of_mem t hx))
        rw [this]
        simp
    · show directLoop (some t) (fun x => if x = s then some t else w x) rest p.1
        = some p.2
      cases rest with
      | nil =>
        simp at hp
      | cons r rs =>
        refine ih (fun x => if x = s then some t else w x) t ?_ p hp
        have h1 : (s :: t :: r :: rs).dropLast
            = s :: (t :: r :: rs).dropLast := rfl
        rw [h1, List.nodup_cons] at hnd
        exact hnd.2

lemma direct_pairs (w : Nat → Option Nat) (actors : List Nat)
    (hnd : actors.Nodup) :
    ∀ p ∈ actors.zip actors.tail, Direct w actors p.1 = some p.2 := by
  cases actors with
  | nil =>
    intro p hp
    simp at hp
  | cons a rest =>
    intro p hp
    show directLoop (some a) w rest p.1 = some p.2
    exact directLoop_pair w a rest
      ((List.dropLast_sublist (a :: rest)).nodup hnd) p hp

lemma direct_frame (w : Nat → Option Nat) (actors : List Nat) (j : Nat)
    (hj : j ∉ actors.dropLast) :
    Direct w actors j = w j := by
  cases actors with
  | nil => rfl
  | cons a rest =>
    show directLoop (some a) w rest j = w j
    cases rest with
    | nil => rfl
    | cons r rs =>
      have hj2 : j ∉ (r :: rs).dropLast ∧ j ≠ a := by
        constructor
        · intro hx
          exact hj (List.mem_cons_of_mem a hx)
        · intro hx
          exact hj (by rw [hx]; exact List.mem_cons_self a _)
      exact directLoop_not_source w (r :: rs) (some a) j
        (fun hx => hj2.2 (by injection hx; omega)) hj2.1

lemma enq_s100_eq : enq s100 = batch100 := by
  simp [enq, s100]

lemma batch100_nodup : batch100.Nodup := by
  apply List.Nodup.map (Option.some_injective Nat)
  exact List.nodup_range' 1 100

lemma batch100_not_none : ∀ m ∈ batch100, m ≠ none := by
  intro m hm
  simp only [batch100, List.mem_map] at hm
  obtain ⟨x, _, hx⟩ := hm
  rw [← hx]
  simp

/-! ## Claim theorems -/

/-- C1, counterexample to the claim as stated: immediately after a
`Queue(5)` call returns (a legal point "at any time"), one message has
been enqueued but the processed counts, the mailbox and the pending list
are all empty — the stated four-term equation `enqueued = ok + fail +
mailbox + pending` fails because the message is still inside the
insertion goroutine. -/
theorem C1_conservation_counterexample :
    Reachable cfgPlain sQueued ∧
    (enq sQueued).length ≠ sQueued.processedOk.length
      + sQueued.processedFail.length + sQueued.inbox.length
      + sQueued.pendings.length :=
  ⟨reach_sQueued, by decide⟩

/-- C1, amended: at any time, the messages passed to `Queue`, plus one
`nil` per zero-value receive from the closed inbox, equal (as multisets)
processed-without-error + processed-with-error + mailbox + pendings +
not-yet-inserted; after `Stop` completes the mailbox holds zero messages;
and in any completed run in which exactly `1..100` were enqueued and every
insertion goroutine finished, the values of the processed messages plus
the values of the pending list returned by `Stop` sum to `5050`. -/
theorem C1_conservation :
    (∀ (α ε : Type) (cfg : Config α ε) (s : St α ε), Reachable cfg s →
      ((enq s : Multiset (Option α)) + Multiset.replicate s.phantoms none
        = (s.processedOk : Multiset (Option α))
          + (s.processedFail : Multiset (Option α))
          + (s.inbox : Multiset (Option α))
          + (s.pendings : Multiset (Option α))
          + (uninserted s : Multiset (Option α)))
      ∧ (s.sphase = .stopped → s.inbox = [])) ∧
    (∀ (ε : Type) (cfg : Config Nat ε) (s : St Nat ε), Reachable cfg s →
      s.sphase = .stopped → uninserted s = [] → enq s = batch100 →
      ((s.processedOk ++ s.processedFail ++ s.pendings).map mval).sum
        = 5050) := by
  constructor
  · intro α ε cfg s h
    have hinv := inv_reachable h
    exact ⟨hinv.conservation,
      fun hstop => hinv.closedEmpty (hinv.closedStopped.mpr hstop)⟩
  · intro ε cfg s h hstop hunins henq
    have hinv := inv_reachable h
    have hc := hinv.conservation
    have hnil : s.inbox = [] :=
      hinv.closedEmpty (hinv.closedStopped.mpr hstop)
    rw [henq, hunins, hnil] at hc
    have hsum := congrArg (fun M : Multiset (Option Nat) =>
      (M.map mval).sum) hc
    have hmn : mval none = 0 := rfl
    simp only [Multiset.map_add, Multiset.sum_add, Multiset.map_coe,
      Multiset.sum_coe, Multiset.map_replicate, Multiset.sum_replicate,
      hmn, smul_zero, Multiset.coe_nil, Multiset.map_zero,
      Multiset.sum_zero, List.map_nil, List.sum_nil] at hsum
    have hbatch : (batch100.map mval).sum = 5050 := by decide
    simp only [List.map_append, List.sum_append]
    omega

/-- Witness for C1 (amended), at the completed `1..100` run `s100`:
the conservation equation holds there, the mailbox is empty, and the
processed-plus-pending values sum to `5050`. -/
theorem C1_conservation_witness :
    ((enq s100 : Multiset (Option Nat))
        + Multiset.replicate s100.phantoms none
      = (s100.processedOk : Multiset (Option Nat))
        + (s100.processedFail : Multiset (Option Nat))
        + (s100.inbox : Multiset (Option Nat))
        + (s100.pendings : Multiset (Option Nat))
        + (uninserted s100 : Multiset (Option Nat))) ∧
    s100.inbox = [] ∧
    ((s100.processedOk ++ s100.processedFail ++ s100.pendings).map mval).sum
      = 5050 :=
  ⟨(C1_conservation.1 Nat Unit cfgBig s100 reach_s100).1,
   (C1_conservation.1 Nat Unit cfgBig s100 reach_s100).2 rfl,
   C1_conservation.2 Unit cfgBig s100 reach_s100 rfl rfl (by decide)⟩

/-- C2: exactly-once accounting.  For every execution (any interleaving,
any configuration) in which the enqueued messages are pairwise distinct
and non-nil: no message is both processed by a worker and drained as
pending; and in a state where `Stop` has completed and every insertion
goroutine has finished, every enqueued message occurs exactly once across
processed-without-error, processed-with-error, and the pending list, i.e.
it received exactly one terminal disposition. -/
theorem C2_exactly_once :
    ∀ (α ε : Type) [DecidableEq α] (cfg : Config α ε) (s : St α ε),
      Reachable cfg s → (enq s).Nodup → (∀ m ∈ enq s, m ≠ none) →
      (∀ m : Option α, m ∈ s.processedOk ++ s.processedFail →
        m ∈ s.pendings → False) ∧
      (s.sphase = .stopped → uninserted s = [] → ∀ m ∈ enq s,
        Multiset.count m ((s.processedOk ++ s.processedFail ++ s.pendings :
          List (Option α)) : Multiset (Option α)) = 1) := by
  intro α ε _ cfg s h hnd hsome
  have hinv := inv_reachable h
  have hc := hinv.conservation
  have hq := hinv.queuedSub
  constructor
  · intro m hmp hmpend
    have hc' := congrArg (Multiset.count m) hc
    have hq' := (Multiset.le_iff_count.mp hq) m
    simp only [Multiset.count_add, Multiset.count_replicate] at hc' hq'
    have h1 : 0 < Multiset.count m
        ((s.processedOk ++ s.processedFail : List (Option α)) :
          Multiset (Option α)) :=
      Multiset.count_pos.mpr (Multiset.mem_coe.mpr hmp)
    have h2 : 0 < Multiset.count m ((s.pendings : Multiset (Option α))) :=
      Multiset.count_pos.mpr (Multiset.mem_coe.mpr hmpend)
    rw [← Multiset.coe_add, Multiset.count_add] at h1
    rcases m with _ | v
    · have h0 : Multiset.count (none : Option α)
          ((enq s : Multiset (Option α))) = 0 :=
        Multiset.count_eq_zero.mpr
          fun hx => hsome none (Multiset.mem_coe.mp hx) rfl
      omega
    · have hle := Multiset.nodup_iff_count_le_one.mp
        (Multiset.coe_nodup.mpr hnd) (some v)
      rw [if_neg (by simp : ¬(none : Option α) = some v)] at hc'
      omega
  · intro hstop hunins m hm
    have hnil : s.inbox = [] :=
      hinv.closedEmpty (hinv.closedStopped.mpr hstop)
    have hc' := congrArg (Multiset.count m) hc
    rw [hnil, hunins] at hc'
    simp only [Multiset.count_add, Multiset.count_replicate,
      Multiset.coe_nil, Multiset.count_zero] at hc'
    have hge : 0 < Multiset.count m ((enq s : Multiset (Option α))) :=
      Multiset.count_pos.mpr (Multiset.mem_coe.mpr hm)
    have hle := Multiset.nodup_iff_count_le_one.mp
      (Multiset.coe_nodup.mpr hnd) m
    have hmn : m ≠ none := hsome m hm
    rw [if_neg (fun hx => hmn hx.symm)] at hc'
    rw [← Multiset.coe_add, ← Multiset.coe_add, Multiset.count_add,
      Multiset.count_add]
    omega

/-- Witness for C2, at the completed `1..100` run `s100`: the messages
`1..100` are distinct and non-nil, no value is both processed and
pending, and every enqueued value has exactly one disposition. -/
theorem C2_exactly_once_witness :
    (∀ m : Option Nat, m ∈ s100.processedOk ++ s100.processedFail →
      m ∈ s100.pendings → False) ∧
    (s100.sphase = .stopped → uninserted s100 = [] → ∀ m ∈ enq s100,
      Multiset.count m ((s100.processedOk ++ s100.processedFail
        ++ s100.pendings : List (Option Nat)) : Multiset (Option Nat))
        = 1) :=
  C2_exactly_once Nat Unit cfgBig s100 reach_s100
    (by rw [enq_s100_eq]; exact batch100_nodup)
    (by rw [enq_s100_eq]; exact batch100_not_none)

/-- C3: `Stop` does not in fact block until every worker thread of the
actor has exited.  `sStopEarly` is reached from a fresh one-worker actor
by running the whole Stop sequence (close the exit channel,
`workgroup.Wait()`, spawn the drain goroutine, `inboxgroup.Wait()`, close
the inbox) before the worker goroutine was ever scheduled:
`workgroup.Wait()` returns immediately because the worker executes
`workgroup.Add(1)` inside the spawned goroutine, so an un-started worker
is not registered with the group.  Stop has completed — the actor is
stopped and the mailbox closed — while its worker has neither run nor
exited. -/
theorem C3_stop_without_worker_exit :
    Reachable cfgPlain sStopEarly ∧ sStopEarly.sphase = .stopped ∧
    sStopEarly.inboxClosed = true ∧
    sStopEarly.workers = [.notStarted] :=
  ⟨reach_sStopEarly, rfl, rfl, rfl⟩

/-- C4, counterexample to the claim as stated: in `sRouted`, reachable on
an actor with an outbox and no exception handler, the processor failed on
the single message (`proc 1 (some 5) = (some 9, some ())`), yet the
result `some 9` was routed to the outbox — the `err != nil` branch of
`work` is skipped when `actor.exception == nil`, and control falls
through to the `actor.outbox != nil` branch. -/
theorem C4_failure_counterexample :
    Reachable cfgErrOutbox sRouted ∧
    cfgErrOutbox.hasException = false ∧ cfgErrOutbox.hasOutbox = true ∧
    (cfgErrOutbox.proc 1 (some 5)).2 = some () ∧
    sRouted.routed = [some 9] ∧ sRouted.processedFail = [some 5] :=
  ⟨reach_sRouted, rfl, rfl, rfl, rfl, rfl⟩

/-- C4, amended: when processing a message fails, then if an exception
handler is configured it is invoked with the same worker index and
failure value, no result is routed, and the message is counted; if no
handler is configured, the handler is not invoked and the message is
counted, but when an outbox is configured the result returned alongside
the failure IS routed to the outbox (only without an outbox is the
failure merely swallowed). -/
theorem C4_failure_handling :
    ∀ (α ε : Type) (cfg : Config α ε) (w : Nat) (m : Option α)
      (s : St α ε) (e : ε), (cfg.proc w m).2 = some e →
      (cfg.hasException = true →
        (workOnMessage cfg w m s).exceptions = s.exceptions ++ [(w, e)] ∧
        (workOnMessage cfg w m s).routed = s.routed ∧
        (workOnMessage cfg w m s).processedFail = s.processedFail ++ [m] ∧
        (workOnMessage cfg w m s).inboxgroup = s.inboxgroup - 1) ∧
      (cfg.hasException = false →
        (workOnMessage cfg w m s).exceptions = s.exceptions ∧
        (workOnMessage cfg w m s).processedFail = s.processedFail ++ [m] ∧
        (workOnMessage cfg w m s).inboxgroup = s.inboxgroup - 1 ∧
        (cfg.hasOutbox = true →
          (workOnMessage cfg w m s).routed
            = s.routed ++ [(cfg.proc w m).1]) ∧
        (cfg.hasOutbox = false →
          (workOnMessage cfg w m s).routed = s.routed)) := by
  intro α ε cfg w m s e he
  rcases hpr : cfg.proc w m with ⟨r, e2⟩
  rw [hpr] at he
  replace he : e2 = some e := he
  subst he
  constructor
  · intro hE
    simp [workOnMessage, hpr, hE]
  · intro hE
    rcases hO : cfg.hasOutbox <;> simp [workOnMessage, hpr, hE, hO]

/-- Witness for C4 (amended): on `cfgErrOutbox` (no handler, outbox
configured), processing the failing message `some 5` routes the result to
the outbox. -/
theorem C4_failure_handling_witness :
    (workOnMessage cfgErrOutbox 1 (some 5) (initSt cfgErrOutbox)).routed
      = (initSt cfgErrOutbox).routed
        ++ [(cfgErrOutbox.proc 1 (some 5)).1] :=
  (((C4_failure_handling Nat Unit cfgErrOutbox 1 (some 5)
    (initSt cfgErrOutbox) () rfl).2 rfl).2.2.2.1) rfl

/-- C5: the synchronous part of `Queue(messages...)` adds the batch size
to the unacknowledged-message counter and registers the batch without
touching the mailbox (insertion happens in separate, later steps of the
spawned goroutine); in every reachable state each insertion goroutine
still holds a suffix of its original batch (so the messages of one call
enter the mailbox in argument order, head first), and the counter equals
buffered plus not-yet-inserted messages (minus zero-value receives), i.e.
each message is counted before it is inserted. -/
theorem C5_queue_semantics :
    (∀ (α ε : Type) (cfg : Config α ε) (s : St α ε)
      (batch : List (Option α)) (s2 : St α ε),
      Step cfg (.queueCall batch) s s2 →
      s2.inboxgroup = s.inboxgroup + batch.length ∧ s2.inbox = s.inbox ∧
      s2.batchLog = s.batchLog ++ [batch] ∧
      s2.inflight = s.inflight ++ [batch]) ∧
    (∀ (α ε : Type) (cfg : Config α ε) (s : St α ε), Reachable cfg s →
      s.inflight.length = s.batchLog.length ∧
      (∀ (i : Nat) (b c : List (Option α)), s.inflight[i]? = some b →
        s.batchLog[i]? = some c → b <:+ c) ∧
      s.inboxgroup = (s.inbox.length : Int)
        + ((uninserted s).length : Int) - (s.phantoms : Int)) := by
  constructor
  · intro α ε cfg s batch s2 hst
    cases hst
    exact ⟨rfl, rfl, rfl, rfl⟩
  · intro α ε cfg s h
    have hinv := inv_reachable h
    exact ⟨hinv.batchLen, hinv.batchSuffix, hinv.counter⟩

/-- Witness for C5: the concrete `Queue(5)` step on a fresh actor, and
the invariant at the completed `1..100` run. -/
theorem C5_queue_semantics_witness :
    (sQueued.inboxgroup = (initSt cfgPlain).inboxgroup
        + (([some 5] : List (Option Nat)).length : Int) ∧
      sQueued.inbox = (initSt cfgPlain).inbox ∧
      sQueued.batchLog = (initSt cfgPlain).batchLog ++ [[some 5]] ∧
      sQueued.inflight = (initSt cfgPlain).inflight ++ [[some 5]]) ∧
    (s100.inflight.length = s100.batchLog.length ∧
      (∀ (i : Nat) (b c : List (Option Nat)), s100.inflight[i]? = some b →
        s100.batchLog[i]? = some c → b <:+ c) ∧
      s100.inboxgroup = (s100.inbox.length : Int)
        + ((uninserted s100).length : Int) - (s100.phantoms : Int)) :=
  ⟨C5_queue_semantics.1 Nat Unit cfgPlain (initSt cfgPlain) [some 5]
      sQueued (Step.queueCall (initSt cfgPlain) [some 5] rfl),
    C5_queue_semantics.2 Nat Unit cfgBig s100 reach_s100⟩

/-- C6: the unacknowledged-message counter is driven below zero by the
code.  `sNegative` is reached by completing `Stop` on a fresh one-worker
actor before the worker goroutine runs (possible because
`workgroup.Add(1)` is executed inside the goroutine), after which the
late worker starts, its `select` takes the receive branch on the
now-closed empty inbox — which in Go yields the zero value immediately —
processes `nil`, and calls `inboxgroup.Done()` on a zero counter.  In the
model the counter reaches `-1`; in Go this is
`panic: sync: negative WaitGroup counter`. -/
theorem C6_negative_counter :
    Reachable cfgPlain sNegative ∧ sNegative.inboxgroup = -1 :=
  ⟨reach_sNegative, rfl⟩

/-- C7: once `Stop` has completed, the mailbox is closed; no insertion
step into the mailbox is possible at all, and an insertion attempt by a
`Queue` goroutine panics (fatal, not a silent no-op: the program halts
and the mailbox is unchanged). -/
theorem C7_stopped_mailbox_closed :
    ∀ (α ε : Type) (cfg : Config α ε) (s : St α ε), Reachable cfg s →
      s.sphase = .stopped →
      s.inboxClosed = true ∧
      (∀ (i : Nat) (s2 : St α ε), ¬ Step cfg (.insertMsg i) s s2) ∧
      (∀ (i : Nat) (s2 : St α ε), Step cfg (.insertClosedPanic i) s s2 →
        s2.panicked = true ∧ s2.inbox = s.inbox ∧
        s2.processedOk = s.processedOk ∧ s2.pendings = s.pendings) := by
  intro α ε cfg s h hstop
  have hinv := inv_reachable h
  have hcl : s.inboxClosed = true := hinv.closedStopped.mpr hstop
  refine ⟨hcl, ?_, ?_⟩
  · intro i s2 hst
    cases hst
    simp_all
  · intro i s2 hst
    cases hst
    exact ⟨rfl, rfl, rfl, rfl⟩

/-- Witness for C7, at the stopped state `sStopEarly`. -/
theorem C7_stopped_mailbox_closed_witness :
    sStopEarly.inboxClosed = true ∧
    (∀ (i : Nat) (s2 : St Nat Unit),
      ¬ Step cfgPlain (.insertMsg i) sStopEarly s2) ∧
    (∀ (i : Nat) (s2 : St Nat Unit),
      Step cfgPlain (.insertClosedPanic i) sStopEarly s2 →
      s2.panicked = true ∧ s2.inbox = sStopEarly.inbox ∧
      s2.processedOk = sStopEarly.processedOk ∧
      s2.pendings = sStopEarly.pendings) :=
  C7_stopped_mailbox_closed Nat Unit cfgPlain sStopEarly reach_sStopEarly
    rfl

/-- C8, counterexample to the claim as stated: `Direct` only assigns the
adjacent-pair outboxes and never clears the last actor's outbox.  With
actor 2 already wired to actor 3, after `Direct(1, 2)` the last actor 2
still has outbox 3 — it is not a sink with no outbox. -/
theorem C8_direct_counterexample :
    Direct w3 [1, 2] 1 = some 2 ∧ Direct w3 [1, 2] 2 = some 3 ∧
    w3 2 = some 3 := by
  refine ⟨?_, ?_, ?_⟩ <;> decide

/-- C8, amended: for pairwise-distinct actors, `Direct` sets each
adjacent pair's outbox (`actor i`'s outbox becomes `actor (i+1)`), and
every actor that is not a source of a pair — in particular the last
actor — keeps its previous outbox unchanged (so the last actor is a sink
only if it had no outbox before). -/
theorem C8_direct_wiring :
    ∀ (w : Nat → Option Nat) (actors : List Nat), actors.Nodup →
      (∀ p ∈ actors.zip actors.tail, Direct w actors p.1 = some p.2) ∧
      (∀ j, j ∉ actors.dropLast → Direct w actors j = w j) :=
  fun w actors hnd =>
    ⟨direct_pairs w actors hnd, fun j hj => direct_frame w actors j hj⟩

/-- Witness for C8 (amended), on the three-actor pipeline `1 → 2 → 3`
over an empty wiring heap. -/
theorem C8_direct_wiring_witness :
    (∀ p ∈ ([1, 2, 3] : List Nat).zip ([1, 2, 3] : List Nat).tail,
      Direct wNone [1, 2, 3] p.1 = some p.2) ∧
    (∀ j, j ∉ ([1, 2, 3] : List Nat).dropLast →
      Direct wNone [1, 2, 3] j = wNone j) :=
  C8_direct_wiring wNone [1, 2, 3] (by decide)

/-- C9: a non-positive worker count is silently normalized to 1 by
`configure`; `New` then behaves exactly as with worker count 1: the same
configuration is produced (so the actors behave identically), exactly one
worker is spawned, and the mailbox capacity is 1. -/
theorem C9_default_worker :
    ∀ (α ε : Type) (p : Nat → Option α → Option α × Option ε)
      (hasExc : Bool) (opt : Options), opt.worker ≤ 0 →
      NewActor p hasExc opt = NewActor p hasExc { opt with worker := 1 } ∧
      (NewActor p hasExc opt).1.numWorker = 1 ∧
      (NewActor p hasExc opt).1.cap = 1 ∧
      (initSt (NewActor p hasExc opt).1).workers.length = 1 := by
  intro α ε p hasExc opt hw
  have hcfg : opt.configure = { opt with worker := 1 } := by
    simp [Options.configure, hw]
  have hcfg2 : ({ opt with worker := 1 } : Options).configure
      = { opt with worker := 1 } := by
    simp [Options.configure]
  refine ⟨?_, ?_, ?_, ?_⟩
  · simp [NewActor, hcfg, hcfg2]
  · simp [NewActor, hcfg]
  · simp [NewActor, hcfg]
  · simp [NewActor, hcfg, initSt]

/-- Witness for C9, at `Create(p, e, worker 0)`. -/
theorem C9_default_worker_witness :
    NewActor cfgPlain.proc false optZero
      = NewActor cfgPlain.proc false { optZero with worker := 1 } ∧
    (NewActor cfgPlain.proc false optZero).1.numWorker = 1 ∧
    (NewActor cfgPlain.proc false optZero).1.cap = 1 ∧
    (initSt (NewActor cfgPlain.proc false optZero).1).workers.length
      = 1 :=
  C9_default_worker Nat Unit cfgPlain.proc false optZero (by decide)

/-- C10: `New` mutates the caller's options object in place through the
pointer receiver of `configure`: after a call with a non-positive worker
count, the caller reads back worker 1, while the name, output and
fail-channel fields are unchanged. -/
theorem C10_new_mutates_options :
    ∀ (α ε : Type) (p : Nat → Option α → Option α × Option ε)
      (hasExc : Bool) (opt : Options), opt.worker ≤ 0 →
      (NewActor p hasExc opt).2.worker = 1 ∧
      (NewActor p hasExc opt).2.name = opt.name ∧
      (NewActor p hasExc opt).2.output = opt.output ∧
      (NewActor p hasExc opt).2.failChannel = opt.failChannel := by
  intro α ε p hasExc opt hw
  have hcfg : opt.configure = { opt with worker := 1 } := by
    simp [Options.configure, hw]
  simp [NewActor, hcfg]

/-- Witness for C10, at an options object with worker `-2` and all other
fields populated. -/
theorem C10_new_mutates_options_witness :
    (NewActor cfgPlain.proc true opt0).2.worker = 1 ∧
    (NewActor cfgPlain.proc true opt0).2.name = opt0.name ∧
    (NewActor cfgPlain.proc true opt0).2.output = opt0.output ∧
    (NewActor cfgPlain.proc true opt0).2.failChannel
      = opt0.failChannel :=
  C10_new_mutates_options Nat Unit cfgPlain.proc true opt0 (by decide)

end ActorModel

